import Mathlib

/-!
Verification of the loopscan echo-correlation engine.

The development shallowly embeds the two core source files:

* `read_fits_simple` (analyze_real_cmb.py): a hand-rolled FITS-like
  reader over a byte stream.  Bytes are modelled as `List Nat`; header
  cards (Python `str` after `decode('ascii', errors='ignore')`) are
  modelled as `List Nat` of code points below 128.  Element values of
  the payload are represented by their big-endian bit patterns
  (a `Nat` folded from the element's bytes), which is exact for the
  bit-for-bit round-trip properties considered here.
* `analyze_cmb_correlations` (analyze_real_cmb.py) and the reporting
  layer `statistical_analysis` (analyze_discovery.py): temperatures are
  modelled as rationals; the Pearson coefficient, whose value needs a
  real square root, is modelled in `ℝ` over rational centred sums, with
  the NaN of a zero-variance pair modelled as `Option.none`.

The unbounded `while True` header loop of the reader takes a fuel
argument: `none` means the loop has not exited within the given fuel
(the loop runs forever exactly when no fuel suffices), `some none`
means the Python function returned `None` (its caught-exception error
outcome), `some (some data)` is a successful read.
-/

/-! ## Format reader (read_fits_simple, analyze_real_cmb.py lines 15-78) -/

/-- Model of `bytes.decode('ascii', errors='ignore')`: code points at or
above 128 are dropped, the rest stand for themselves. -/
def decodeAscii (bs : List Nat) : List Nat :=
  bs.filter (· < 128)

/-- The header-scanning loop (lines 26-30): repeatedly `f.read(80)`,
decode, append, and stop once a card starts with the code points of
`END` (69, 78, 68).  Reads past the end of the stream return the empty
list, as `f.read` does at EOF.  The loop is unbounded in the source, so
it is given fuel here; `none` means the loop has not exited. -/
def readCards (stream : List Nat) : Nat → Option (List (List Nat))
  | 0 => none
  | fuel + 1 =>
    if [69, 78, 68].isPrefixOf (decodeAscii (stream.take 80)) then
      some [decodeAscii (stream.take 80)]
    else (readCards (stream.drop 80) fuel).map (decodeAscii (stream.take 80) :: ·)

/-- Python whitespace recognized by `str.strip` on the ASCII cards. -/
def isSpaceB (b : Nat) : Bool :=
  b = 32 || b = 9 || b = 10 || b = 11 || b = 12 || b = 13

/-- Model of Python `str.strip()` on a card fragment. -/
def pyStrip (l : List Nat) : List Nat :=
  ((l.dropWhile isSpaceB).reverse.dropWhile isSpaceB).reverse

/-- Decimal digit code points. -/
def isDigitB (b : Nat) : Bool := 48 ≤ b && b ≤ 57

/-- Value of a run of decimal digit code points. -/
def digitsVal (l : List Nat) : Nat :=
  l.foldl (fun a d => 10 * a + (d - 48)) 0

/-- Model of Python `int(s)` on an already stripped string: an optional
sign (code 45 or 43) followed by at least one digit; anything else
raises `ValueError`, modelled as `none`. -/
def pyIntParse (l : List Nat) : Option Int :=
  match l with
  | 45 :: ds => if ds ≠ [] ∧ ds.all isDigitB then some (-(digitsVal ds : Int)) else none
  | 43 :: ds => if ds ≠ [] ∧ ds.all isDigitB then some (digitsVal ds : Int) else none
  | ds => if ds ≠ [] ∧ ds.all isDigitB then some (digitsVal ds : Int) else none

/-- Model of `card.split('=')[1]` (lines 44-48): the segment strictly
between the first and second `=` (code 61).  `none` models the
`IndexError` raised when the card has no `=`. -/
def splitEqSecond (card : List Nat) : Option (List Nat) :=
  match card.dropWhile (· ≠ 61) with
  | [] => none
  | _ :: tail => some (tail.takeWhile (· ≠ 61))

/-- Model of `int(card.split('=')[1].split('/')[0].strip())`:
`none` is a raised exception (caught at line 76). -/
def parseFieldValue (card : List Nat) : Option Int :=
  match splitEqSecond card with
  | none => none
  | some seg => pyIntParse (pyStrip (seg.takeWhile (· ≠ 47)))

/-- The header-field scan of lines 42-48: for each card, an `if/elif`
chain on the prefixes `NAXIS   =`, `NAXIS1  =`, `BITPIX  =` (as code
points), each hit overwriting the accumulated value; a parse failure
aborts the whole reader (outer `none`). -/
def scanFieldsAux (acc : Option Int × Option Int × Option Int) :
    List (List Nat) → Option (Option Int × Option Int × Option Int)
  | [] => some acc
  | card :: rest =>
    if [78, 65, 88, 73, 83, 32, 32, 32, 61].isPrefixOf card then
      (parseFieldValue card).bind (fun v => scanFieldsAux (some v, acc.2.1, acc.2.2) rest)
    else if [78, 65, 88, 73, 83, 49, 32, 32, 61].isPrefixOf card then
      (parseFieldValue card).bind (fun v => scanFieldsAux (acc.1, some v, acc.2.2) rest)
    else if [66, 73, 84, 80, 73, 88, 32, 32, 61].isPrefixOf card then
      (parseFieldValue card).bind (fun v => scanFieldsAux (acc.1, acc.2.1, some v) rest)
    else scanFieldsAux acc rest

def scanFields (cards : List (List Nat)) :
    Option (Option Int × Option Int × Option Int) :=
  scanFieldsAux (none, none, none) cards

/-- Lines 33-35: `header_blocks = (len(header_cards)*80 + 2879) // 2880`,
`total_header_size = header_blocks * 2880`. -/
def headerByteSize (cards : List (List Nat)) : Nat :=
  ((cards.length * 80 + 2879) / 2880) * 2880

/-- Lines 56-63: the element width in bytes selected by BITPIX
(-32 and unrecognized codes give big-endian float32, -64 float64,
32 int32; all four-or-eight-byte big-endian). -/
def bitpixWidth (bitpix : Option Int) : Nat :=
  if bitpix = some (-32) then 4
  else if bitpix = some (-64) then 8
  else if bitpix = some 32 then 4
  else 4

/-- Big-endian bit pattern of one element. -/
def beVal (l : List Nat) : Nat :=
  l.foldl (fun a b => 256 * a + b) 0

/-- Model of `np.frombuffer` on an exact multiple of the element width:
the stream cut into width-sized big-endian bit patterns. -/
def beChunks (w : Nat) (l : List Nat) : List Nat :=
  if h : w = 0 ∨ l.length < w then []
  else beVal (l.take w) :: beChunks w (l.drop w)
  termination_by l.length
  decreasing_by
    push_neg at h
    simp only [List.length_drop]
    omega

/-- Line 68-69: `if naxis1: data = data[:naxis1]`.  A Python slice with
a negative bound counts from the end; `0` is falsy and leaves the data
alone. -/
def pyTrim (naxis1 : Option Int) (l : List Nat) : List Nat :=
  match naxis1 with
  | none => l
  | some n =>
    if n = 0 then l
    else if 0 < n then l.take n.toNat
    else l.take (l.length - (-n).toNat)

/-- The part of the reader after the header loop has exited (lines
33-74): parse the three header fields, seek past the padded header,
reinterpret the rest as big-endian elements, trim to NAXIS1.  `none`
models the `None` return of the caught-exception path: a field parse
failure, a payload that is not a whole number of elements
(`np.frombuffer` raises), or an empty final array (`np.min` on line 72
raises on an empty array). -/
def processCards (bytes : List Nat) (cards : List (List Nat)) : Option (List Nat) :=
  match scanFields cards with
  | none => none
  | some (_naxis, naxis1, bitpix) =>
    let payload := bytes.drop (headerByteSize cards)
    let w := bitpixWidth bitpix
    if payload.length % w ≠ 0 then none
    else
      let data := pyTrim naxis1 (beChunks w payload)
      if data = [] then none else some data

/-- `read_fits_simple` over a byte stream, with fuel for the header
loop: `none` = the `while True` loop has not exited within the fuel,
`some none` = the function returned `None`, `some (some data)` =
successful read of the element bit patterns. -/
def read_fits_simple (bytes : List Nat) (fuel : Nat) : Option (Option (List Nat)) :=
  (readCards bytes fuel).map (processCards bytes)

/-! ## Patch sampler (analyze_cmb_correlations lines 107-110) -/

/-- A stream of pseudo-random naturals.  `np.random` holds one such
stream as mutable global state. -/
def RngStream : Type := Nat → Nat

/-- Abstract model of the MT19937 output stream obtained from
`np.random.seed(seed)`.  Every claim below is insensitive to the
concrete values: the sampler theorems quantify over all streams, and
the determinism theorem needs only that the stream is a pure function
of the seed, which the source fixes at 42. -/
def mtStream (seed : Nat) : RngStream :=
  fun i => (seed + (i + 1) * 2654435761) % 4294967296

/-- Selection without replacement from a pool, one rng draw per pick:
the abstract counterpart of NumPy's partial-shuffle selection.  Every
outcome NumPy can produce is this function at some stream, so the
universally quantified theorems below cover the library's behavior. -/
def npChoiceAux (rng : RngStream) : Nat → List Nat → List Nat
  | 0, _ => []
  | _ + 1, [] => []
  | k + 1, x :: xs =>
    let pool := x :: xs
    let i := rng k % pool.length
    pool.get ⟨i, Nat.mod_lt _ (Nat.succ_pos xs.length)⟩ :: npChoiceAux rng k (pool.eraseIdx i)

/-- `np.random.choice(n, k, replace=False)`: `k` distinct draws from
`np.arange(n)`. -/
def np_random_choice (rng : RngStream) (n k : Nat) : List Nat :=
  npChoiceAux rng k (List.range n)

/-- Line 109-110: `max_start = len(valid_data) - patch_size`;
`sample_starts = np.random.choice(max_start, min(n_samples, max_start),
replace=False)`. -/
def analyze_sample_starts (rng : RngStream) (N P K : Nat) : List Nat :=
  np_random_choice rng (N - P) (min K (N - P))

/-! ## Offset generator and pairing (lines 124-135) -/

/-- Lines 124-128: `test_separations = [len//4, len//2, 3*len//4]`. -/
def test_separations (N : Nat) : List Nat :=
  [N / 4, N / 2, 3 * N / 4]

/-- Lines 131-135: `start2 = (start1 + separation) % len(valid_data)`,
then `if start2 + patch_size > len(valid_data): start2 = len - patch_size`. -/
def start2Of (N P s1 sep : Nat) : Nat :=
  let s2 := (s1 + sep) % N
  if N < s2 + P then N - P else s2

/-- Line 145: `angular_sep = 360.0 * separation / len(valid_data)`,
for each of the three generated separations. -/
def sepAngles (N : Nat) : List ℚ :=
  (test_separations N).map (fun (sep : Nat) => 360 * (sep : ℚ) / (N : ℚ))

/-! ## Correlation scorer (lines 139-156) and match records -/

/-- Mean of a rational list; `0/0 = 0` can only arise for the empty
list, which never reaches the scorer. -/
def qmean (l : List ℚ) : ℚ := l.sum / (l.length : ℚ)

/-- Centred cross sum `Σ (xᵢ - mean x) * (yᵢ - mean y)` over the common
length, the numerator kernel of `np.corrcoef` (the 1/(n-1) factors of
the covariance matrix cancel in the coefficient). -/
def sXY (x y : List ℚ) : ℚ :=
  ((x.zip y).map (fun p => (p.1 - qmean x) * (p.2 - qmean y))).sum

/-- Centred sum of squares of one patch. -/
def sXX (x : List ℚ) : ℚ := sXY x x

/-- `np.corrcoef(patch1, patch2)[0, 1]` for equal-length patches:
`S_xy / sqrt(S_xx * S_yy)`.  A zero-variance patch makes the quotient
`0/0`, NumPy's NaN, modelled as `none`; the `not np.isnan` test on
line 143 is the match on this option. -/
noncomputable def corrcoef (x y : List ℚ) : Option ℝ :=
  if sXX x = 0 ∨ sXX y = 0 then none
  else some ((sXY x y : ℝ) / Real.sqrt ((sXX x : ℝ) * (sXX y : ℝ)))

/-- The Boolean of `abs(correlation) >= min_correlation` (line 143),
written square-root-free over the rational centred sums; the lemma
`absGe_iff_abs_corr_le` below proves it equal to the source's real
inequality whenever the coefficient is not NaN. -/
def absGe (x y : List ℚ) (t : ℚ) : Bool :=
  decide (t ≤ 0) || decide (t ^ 2 * (sXX x * sXX y) ≤ sXY x y ^ 2)

/-- One dictionary appended to `matches` (lines 147-154). -/
structure MatchRecord where
  location1 : Nat
  location2 : Nat
  correlation : ℝ
  separation_pixels : Nat
  separation_degrees : ℚ
  patch_size : Nat

/-- The body of the inner loop (lines 130-156) for one sampled start
and one candidate separation: compute the clamped-or-wrapped second
start, slice both patches, score them, and keep a `MatchRecord` when
the coefficient is defined and at least `min_correlation` in absolute
value; `none` is the silent skip. -/
noncomputable def matchRecordFor (vd : List ℚ) (P : Nat) (t : ℚ) (s1 sep : Nat) :
    Option MatchRecord :=
  (corrcoef ((vd.drop s1).take P)
      ((vd.drop (start2Of vd.length P s1 sep)).take P)).bind
    (fun c =>
      if absGe ((vd.drop s1).take P)
          ((vd.drop (start2Of vd.length P s1 sep)).take P) t then
        some ⟨s1, start2Of vd.length P s1 sep, c, sep,
          360 * (sep : ℚ) / (vd.length : ℚ), P⟩
      else none)

/-- `analyze_cmb_correlations(cmb_data, patch_size, n_samples,
min_correlation)` (lines 80-159).  Its first argument here is the
ambient global `np.random` state, which line 108 (`np.random.seed(42)`)
immediately overwrites; rationals are all finite, so the `np.isfinite`
filter of line 91 keeps the data unchanged.  Returns the match list in
the loop's append order. -/
noncomputable def analyze_cmb_correlations (_g : RngStream) (cmb_data : List ℚ)
    (patch_size n_samples : Nat) (min_correlation : ℚ) : List MatchRecord :=
  if cmb_data.length < patch_size * 2 then []
  else
    (analyze_sample_starts (mtStream 42) cmb_data.length patch_size n_samples).flatMap
      (fun start1 =>
        (test_separations cmb_data.length).filterMap
          (matchRecordFor cmb_data patch_size min_correlation start1))

/-! ## Ranking and significance layer (main lines 277, 315-323;
analyze_discovery.py statistical_analysis) -/

/-- Line 277: `matches.sort(key=lambda x: abs(x['correlation']),
reverse=True)` — a stable descending sort on the correlation magnitude,
as CPython's stable `list.sort` with `reverse=True`. -/
noncomputable def sortDesc (ms : List MatchRecord) : List MatchRecord :=
  ms.mergeSort (fun a b => decide (|b.correlation| ≤ |a.correlation|))

/-- Line 323: `results['top_matches'] = matches[:20]` after the sort. -/
noncomputable def top_matches (ms : List MatchRecord) : List MatchRecord :=
  (sortDesc ms).take 20

/-- Mean over `ℝ`. -/
noncomputable def rmean (l : List ℝ) : ℝ := l.sum / (l.length : ℝ)

/-- Sample variance with `ddof = 1`, as used by `scipy.stats.ttest_1samp`. -/
noncomputable def sampleVar (l : List ℝ) : ℝ :=
  (l.map (fun x => (x - rmean l) ^ 2)).sum / ((l.length : ℝ) - 1)

/-- The t statistic of `scipy.stats.ttest_1samp(a, popmean)`:
`(mean(a) - popmean) / sqrt(var(a, ddof=1) / len(a))`.  The returned
p value is the external library's pure function of this statistic and
`len(a) - 1` degrees of freedom. -/
noncomputable def ttest_1samp_t (a : List ℝ) (popmean : ℝ) : ℝ :=
  (rmean a - popmean) / Real.sqrt (sampleVar a / (a.length : ℝ))

/-- `statistical_analysis` lines 23-24 and 52-55 (analyze_discovery.py):
the magnitudes `np.abs(all_correlations)` of the loaded
`results['top_matches']`. -/
noncomputable def sa_abs_correlations (top : List MatchRecord) : List ℝ :=
  top.map (fun m => |m.correlation|)

/-- The t statistic computed by `statistical_analysis`:
`stats.ttest_1samp(abs_correlations, 0)` on the loaded top matches. -/
noncomputable def statistical_analysis_t (top : List MatchRecord) : ℝ :=
  ttest_1samp_t (sa_abs_correlations top) 0

/-! ## Synthetic header+payload builder, for the round-trip property -/

/-- Pad a card's code points with spaces to the 80-byte record size. -/
def padCard (l : List Nat) : List Nat :=
  l ++ List.replicate (80 - l.length) 32

/-- The code points of the keyword-and-equals prelude `NAXIS   = `. -/
def naxisKey : List Nat := [78, 65, 88, 73, 83, 32, 32, 32, 61, 32]

/-- The code points of `NAXIS1  = `. -/
def naxis1Key : List Nat := [78, 65, 88, 73, 83, 49, 32, 32, 61, 32]

/-- The code points of `BITPIX  = `. -/
def bitpixKey : List Nat := [66, 73, 84, 80, 73, 88, 32, 32, 61, 32]

/-- An 80-byte `NAXIS   = 1` card. -/
def naxisCard : List Nat := padCard (naxisKey ++ [49])

/-- An 80-byte `NAXIS1  = <digits>` card declaring the element count. -/
def naxis1Card (mdig : List Nat) : List Nat := padCard (naxis1Key ++ mdig)

/-- An 80-byte `BITPIX  = <value>` card declaring the element type code. -/
def bitpixCard (bdig : List Nat) : List Nat := padCard (bitpixKey ++ bdig)

/-- The 80-byte terminator card `END`. -/
def endCard : List Nat := padCard [69, 78, 68]

/-- A well-formed synthetic input in the reader's format: four 80-byte
header cards ending with `END`, padded with spaces to one 2880-byte
block, followed by the raw big-endian payload. -/
def mkFits (mdig bdig payload : List Nat) : List Nat :=
  naxisCard ++ naxis1Card mdig ++ bitpixCard bdig ++ endCard ++
    List.replicate 2560 32 ++ payload

/-- A stream whose single header card is `END`, followed by the block
padding and a six-byte payload: used to exhibit a failure outside the
specified failure cases (six bytes hold one four-byte element, yet
`np.frombuffer` rejects the 6-mod-4 remainder). -/
def cexStreamC3 : List Nat :=
  endCard ++ List.replicate 2800 32 ++ [1, 2, 3, 4, 5, 6]

/-! ## Supporting lemmas -/

/-- Removing the element at a valid index and putting it back in front
is a permutation of the original list. -/
theorem perm_get_cons_eraseIdx :
    ∀ (l : List Nat) (i : Nat) (h : i < l.length),
      l.Perm (l.get ⟨i, h⟩ :: l.eraseIdx i)
  | _ :: _, 0, _ => List.Perm.refl _
  | x :: xs, i + 1, h => by
    have hi : i < xs.length := by simpa using h
    have ih := perm_get_cons_eraseIdx xs i hi
    simpa [List.eraseIdx] using
      ((ih.cons x).trans (List.Perm.swap _ x _))

/-- The without-replacement selection is a sub-permutation of its pool. -/
theorem npChoiceAux_subperm (rng : RngStream) :
    ∀ (k : Nat) (pool : List Nat), (npChoiceAux rng k pool).Subperm pool
  | 0, _ => List.nil_subperm
  | _ + 1, [] => List.nil_subperm
  | k + 1, x :: xs => by
    simp only [npChoiceAux]
    set pool := x :: xs with hpool
    set i := rng k % pool.length with hi
    have hlt : i < pool.length := Nat.mod_lt _ (Nat.succ_pos xs.length)
    have hrec := npChoiceAux_subperm rng k (pool.eraseIdx i)
    have hcons := (List.subperm_cons (pool.get ⟨i, hlt⟩)).mpr hrec
    exact hcons.trans (perm_get_cons_eraseIdx pool i hlt).symm.subperm

/-- The selection returns exactly `k` values when the pool suffices. -/
theorem npChoiceAux_length (rng : RngStream) :
    ∀ (k : Nat) (pool : List Nat), k ≤ pool.length →
      (npChoiceAux rng k pool).length = k
  | 0, _, _ => rfl
  | _ + 1, [], h => by simp at h
  | k + 1, x :: xs, h => by
    have hlt : rng k % (x :: xs).length < (x :: xs).length :=
      Nat.mod_lt _ (Nat.succ_pos xs.length)
    have herase : ((x :: xs).eraseIdx (rng k % (x :: xs).length)).length = xs.length := by
      rw [List.length_eraseIdx, if_pos hlt]
      simp
    have hk : k ≤ xs.length := by
      simp only [List.length_cons] at h
      omega
    have hrec := npChoiceAux_length rng k ((x :: xs).eraseIdx (rng k % (x :: xs).length))
      (herase ▸ hk)
    simp only [npChoiceAux]
    rw [List.length_cons, hrec]

/-! ## Claim theorems -/

/-- C1 (corrected). The source first wraps the pairing through
`(start1 + separation) % N` and only then clamps to `N - P` when the
wrapped start would run past the array.  Hence for a sampled start
(`start1 < N - P`) and an offset below `N`: when `start1 + offset`
reaches `N` the second start IS the wrapped value
`(start1 + offset) - N`, with no clamping (the wrapped value always
fits); clamping to `N - P` happens exactly in the non-overflowing case
`start1 + offset < N` with `start1 + offset + P > N`. -/
theorem c1_pairing_corrected (N P s1 sep : Nat) (h1 : s1 < N - P) (h2 : sep < N) :
    (N ≤ s1 + sep → start2Of N P s1 sep = s1 + sep - N) ∧
    (s1 + sep < N →
      start2Of N P s1 sep = if N < s1 + sep + P then N - P else s1 + sep) := by
  constructor
  · intro hge
    have hmod : (s1 + sep) % N = s1 + sep - N := by
      rw [Nat.mod_eq_sub_mod hge, Nat.mod_eq_of_lt (by omega)]
    have hfit : ¬ N < (s1 + sep - N) + P := by omega
    simp only [start2Of, hmod, if_neg hfit]
  · intro hlt
    simp only [start2Of, Nat.mod_eq_of_lt hlt]

/-- Witness for c1_pairing_corrected at N=8, P=2, start1=5, offset=6. -/
theorem c1_pairing_corrected_witness :
    (8 ≤ 5 + 6 → start2Of 8 2 5 6 = 5 + 6 - 8) ∧
    (5 + 6 < 8 → start2Of 8 2 5 6 = if 8 < 5 + 6 + 2 then 8 - 2 else 5 + 6) :=
  c1_pairing_corrected 8 2 5 6 (by decide) (by decide)

/-- C1 counterexample: with 8 data points, patch size 2 and all 6 valid
starts sampled, start1 = 5 paired at the quarter offset 6 overflows
(5 + 6 > 8) and the code produces start2 = 3 = (5 + 6) - 8, wrapped
into low indices, not the clamp value 8 - 2 = 6. -/
theorem c1_counterexample :
    5 ∈ analyze_sample_starts (fun _ => 0) 8 2 6 ∧
    6 ∈ test_separations 8 ∧
    start2Of 8 2 5 6 = 5 + 6 - 8 ∧
    start2Of 8 2 5 6 ≠ 8 - 2 := by decide

/-- C2 (corrected).  The sampler draws without replacement from
`np.arange(N - P)`, i.e. from the half-open range `[0, N-P)`: the
returned starts are distinct, there are `min(K, N - P)` of them (the
count is clamped, the call does not fail), and every start is strictly
below `N - P`; the claim's inclusive upper end `N - P` is never drawn
and the claim's count `min(K, N - P + 1)` is off by one. -/
theorem c2_sampler_corrected (rng : RngStream) (N P K : Nat) (h2P : 2 * P ≤ N) :
    (analyze_sample_starts rng N P K).Nodup ∧
    (analyze_sample_starts rng N P K).length = min K (N - P) ∧
    ∀ s ∈ analyze_sample_starts rng N P K, s < N - P := by
  have hsub : (analyze_sample_starts rng N P K).Subperm (List.range (N - P)) :=
    npChoiceAux_subperm rng _ _
  refine ⟨?_, ?_, ?_⟩
  · obtain ⟨l, hperm, hsl⟩ := hsub
    exact hperm.nodup_iff.mp (hsl.nodup (List.nodup_range _))
  · exact npChoiceAux_length rng _ _ (by simp)
  · intro s hs
    exact List.mem_range.mp (hsub.subset hs)

/-- Witness for c2_sampler_corrected at N=10, P=3, K=100 with the
seeded stream. -/
theorem c2_sampler_corrected_witness :
    (analyze_sample_starts (mtStream 42) 10 3 100).Nodup ∧
    (analyze_sample_starts (mtStream 42) 10 3 100).length = min 100 (10 - 3) ∧
    ∀ s ∈ analyze_sample_starts (mtStream 42) 10 3 100, s < 10 - 3 :=
  c2_sampler_corrected (mtStream 42) 10 3 100 (by decide)

/-- C2 counterexample: with 8 data points and patch size 3 there are 6
starts in the claim's inclusive range [0, 5], but the code draws from
range(5): the count is min(K, 5) = 5, not min(K, 6) = 6, and the start
5 = N - P is never produced. -/
theorem c2_counterexample :
    (analyze_sample_starts (fun _ => 0) 8 3 100).length ≠ min 100 (8 - 3 + 1) ∧
    (8 - 3) ∉ analyze_sample_starts (fun _ => 0) 8 3 100 := by decide

/-- C4 (code bug).  On a stream with no END record — here the empty
stream — the header loop never exits: every `f.read(80)` past EOF
yields the empty card, which does not start with END, so no amount of
fuel makes `read_fits_simple` return.  The documented intent (a
`FormatError` when the terminator is missing) is never reached. -/
theorem c4_header_loop_diverges (fuel : Nat) : read_fits_simple [] fuel = none := by
  have h : ∀ f : Nat, readCards [] f = none := by
    intro f
    induction f with
    | zero => rfl
    | succ n ih => simp [readCards, decodeAscii, List.isPrefixOf, ih]
  simp [read_fits_simple, h]

/-- C6 (confirmed).  The analysis seeds the global generator with the
constant 42 before sampling, so its output is independent of the
ambient generator state: two runs on the same array and parameters
produce identical ordered match lists, both before and after the
ranking sort. -/
theorem c6_determinism (g1 g2 : RngStream) (data : List ℚ) (P K : Nat) (t : ℚ) :
    analyze_cmb_correlations g1 data P K t = analyze_cmb_correlations g2 data P K t ∧
    sortDesc (analyze_cmb_correlations g1 data P K t) =
      sortDesc (analyze_cmb_correlations g2 data P K t) :=
  ⟨rfl, rfl⟩

/-- Integer floor division is within one of the exact quotient. -/
theorem natDiv_cast_close (n d : Nat) (hd : 0 < d) :
    |((n / d : Nat) : ℚ) - (n : ℚ) / (d : ℚ)| < 1 := by
  have hdq : (0 : ℚ) < (d : ℚ) := by exact_mod_cast hd
  have h1 : (d : ℚ) * ((n / d : Nat) : ℚ) + ((n % d : Nat) : ℚ) = (n : ℚ) := by
    exact_mod_cast Nat.div_add_mod n d
  have h2 : ((n % d : Nat) : ℚ) < (d : ℚ) := by exact_mod_cast Nat.mod_lt n hd
  have h3 : (0 : ℚ) ≤ ((n % d : Nat) : ℚ) := by positivity
  have key : ((n / d : Nat) : ℚ) - (n : ℚ) / (d : ℚ) = -(((n % d : Nat) : ℚ) / (d : ℚ)) := by
    field_simp
    linarith [h1]
  rw [key, abs_neg, abs_div, abs_of_nonneg h3, abs_of_pos hdq]
  exact (div_lt_one hdq).mpr h2

/-- C10 (corrected).  The three generated offsets are the floor
divisions `⌊N/4⌋`, `⌊N/2⌋`, `⌊3N/4⌋` — within integer rounding of
`N/4`, `N/2`, `3N/4` for every `N` — but the angular separations
`360 * offset / N` computed from them equal 90°, 180°, 270° only when
4 divides N; otherwise the floor error shifts the angles by up to tens
of degrees, far beyond floating-point tolerance. -/
theorem c10_offsets_corrected (N : Nat) (hN : 0 < N) :
    (test_separations N = [N / 4, N / 2, 3 * N / 4] ∧
      |((N / 4 : Nat) : ℚ) - (N : ℚ) / 4| < 1 ∧
      |((N / 2 : Nat) : ℚ) - (N : ℚ) / 2| < 1 ∧
      |((3 * N / 4 : Nat) : ℚ) - 3 * (N : ℚ) / 4| < 1) ∧
    (4 ∣ N → sepAngles N = [90, 180, 270]) := by
  constructor
  · refine ⟨rfl, natDiv_cast_close N 4 (by norm_num),
      natDiv_cast_close N 2 (by norm_num), ?_⟩
    have := natDiv_cast_close (3 * N) 4 (by norm_num)
    have hc : ((3 * N : Nat) : ℚ) = 3 * (N : ℚ) := by push_cast; ring
    rw [hc] at this
    exact this
  · rintro ⟨k, rfl⟩
    have hk : 0 < k := by omega
    have hk0 : (k : ℚ) ≠ 0 := by
      exact_mod_cast hk.ne'
    have e1 : 4 * k / 4 = k := by omega
    have e2 : 4 * k / 2 = 2 * k := by omega
    have e3 : 3 * (4 * k) / 4 = 3 * k := by omega
    have a1 : 360 * (k : ℚ) / ((4 * k : Nat) : ℚ) = 90 := by
      push_cast
      field_simp
      ring
    have a2 : 360 * ((2 * k : Nat) : ℚ) / ((4 * k : Nat) : ℚ) = 180 := by
      push_cast
      field_simp
      ring
    have a3 : 360 * ((3 * k : Nat) : ℚ) / ((4 * k : Nat) : ℚ) = 270 := by
      push_cast
      field_simp
      ring
    unfold sepAngles test_separations
    rw [e1, e2, e3]
    simp only [List.map_cons, List.map_nil]
    rw [show ((k : Nat) : ℚ) = (k : ℚ) from rfl] at a1
    rw [a1, a2, a3]

/-- Witness for c10_offsets_corrected: at N = 8 the angles are exact. -/
theorem c10_offsets_corrected_witness : sepAngles 8 = [90, 180, 270] :=
  (c10_offsets_corrected 8 (by decide)).2 (by decide)

/-- C10 counterexample: at N = 6 (a valid analysis length, e.g. patch
size 3) the generated offsets are [1, 3, 4] and the first and third
angles are 60° and 240° — thirty degrees away from the claimed 90° and
270°, beyond any floating tolerance. -/
theorem c10_counterexample :
    test_separations 6 = [1, 3, 4] ∧
    sepAngles 6 = [60, 180, 240] ∧
    ¬ |(60 : ℚ) - 90| < 1 := by
  refine ⟨rfl, ?_, by norm_num⟩
  norm_num [sepAngles, test_separations]

/-- A list zipped with itself pairs each element with itself. -/
theorem zip_self (l : List ℚ) : l.zip l = l.map (fun a => (a, a)) := by
  induction l with
  | nil => simp
  | cons x xs ih => simp [ih]

/-- The centred self sum is a sum of squares. -/
theorem sXX_eq_sum_sq (x : List ℚ) :
    sXX x = (x.map (fun a => (a - qmean x) ^ 2)).sum := by
  unfold sXX sXY
  rw [zip_self, List.map_map]
  have hfun : ((fun p : ℚ × ℚ => (p.1 - qmean x) * (p.2 - qmean x)) ∘ fun a => (a, a)) =
      fun a => (a - qmean x) ^ 2 := by
    funext a
    simp [Function.comp]
    ring
  rw [hfun]

/-- The centred self sum is nonnegative. -/
theorem sXX_nonneg (x : List ℚ) : 0 ≤ sXX x := by
  rw [sXX_eq_sum_sq]
  apply List.sum_nonneg
  intro y hy
  obtain ⟨a, _, rfl⟩ := List.mem_map.mp hy
  positivity

/-- A constant list has zero centred self sum (zero variance). -/
theorem sXX_of_const (x : List ℚ) (c : ℚ) (hc : ∀ a ∈ x, a = c) : sXX x = 0 := by
  rcases x with _ | ⟨a, l⟩
  · simp [sXX, sXY]
  · have hmean : qmean (a :: l) = c := by
      have hsum : ∀ m : List ℚ, (∀ b ∈ m, b = c) → m.sum = (m.length : ℚ) * c := by
        intro m
        induction m with
        | nil => simp
        | cons b bs ih =>
          intro hb
          have hbc : b = c := hb b (by simp)
          have := ih (fun y hy => hb y (by simp [hy]))
          simp only [List.sum_cons, List.length_cons, this, hbc]
          push_cast
          ring
      have hlen : ((a :: l).length : ℚ) ≠ 0 := by
        have h0 : (0 : ℚ) ≤ (l.length : ℚ) := Nat.cast_nonneg _
        simp only [List.length_cons]
        push_cast
        intro hcontra
        linarith
      unfold qmean
      rw [hsum (a :: l) hc]
      field_simp
    rw [sXX_eq_sum_sq]
    apply List.sum_eq_zero
    intro y hy
    obtain ⟨b, hb, rfl⟩ := List.mem_map.mp hy
    rw [hc b hb, hmean]
    ring

/-- The square-root-free threshold test is antitone in the threshold. -/
theorem absGe_mono (x y : List ℚ) (t1 t2 : ℚ) (h12 : t1 ≤ t2)
    (h : absGe x y t2 = true) : absGe x y t1 = true := by
  unfold absGe at h ⊢
  rw [Bool.or_eq_true, decide_eq_true_iff, decide_eq_true_iff] at h ⊢
  rcases h with h | h
  · exact Or.inl (le_trans h12 h)
  · by_cases h1 : t1 ≤ 0
    · exact Or.inl h1
    · push_neg at h1
      refine Or.inr (le_trans ?_ h)
      have hsq : t1 ^ 2 ≤ t2 ^ 2 := pow_le_pow_left₀ h1.le h12 2
      have hS : 0 ≤ sXX x * sXX y := mul_nonneg (sXX_nonneg x) (sXX_nonneg y)
      exact mul_le_mul_of_nonneg_right hsq hS

/-- A pair kept at the higher threshold is kept, with the same record,
at the lower one. -/
theorem matchRecordFor_mono (vd : List ℚ) (P : Nat) (t1 t2 : ℚ) (h12 : t1 ≤ t2)
    (s1 sep : Nat) (r : MatchRecord) (h : matchRecordFor vd P t2 s1 sep = some r) :
    matchRecordFor vd P t1 s1 sep = some r := by
  unfold matchRecordFor at h ⊢
  cases hc : corrcoef ((vd.drop s1).take P)
      ((vd.drop (start2Of vd.length P s1 sep)).take P) with
  | none =>
    rw [hc] at h
    simp at h
  | some c =>
    rw [hc] at h
    rw [Option.some_bind] at h ⊢
    by_cases hk : absGe ((vd.drop s1).take P)
        ((vd.drop (start2Of vd.length P s1 sep)).take P) t2 = true
    · rw [if_pos hk] at h
      rw [if_pos (absGe_mono _ _ t1 t2 h12 hk)]
      exact h
    · rw [if_neg hk] at h
      exact absurd h (by simp)

/-- `filterMap` with a function that keeps fewer elements (and agrees
where both keep) yields a sublist. -/
theorem filterMap_sublist_of_imp {α β : Type} (f g : α → Option β)
    (h : ∀ a b, f a = some b → g a = some b) :
    ∀ l : List α, (l.filterMap f).Sublist (l.filterMap g) := by
  intro l
  induction l with
  | nil => simp
  | cons a l ih =>
    cases hfa : f a with
    | none =>
      cases hga : g a with
      | none => simpa [List.filterMap_cons, hfa, hga] using ih
      | some c =>
        simp only [List.filterMap_cons, hfa, hga]
        exact ih.cons c
    | some b =>
      have hga := h a b hfa
      simp only [List.filterMap_cons, hfa, hga]
      exact ih.cons₂ b

/-- `flatMap` of pointwise sublists is a sublist. -/
theorem flatMap_sublist {α β : Type} (f g : α → List β)
    (h : ∀ a, (f a).Sublist (g a)) :
    ∀ l : List α, (l.flatMap f).Sublist (l.flatMap g) := by
  intro l
  induction l with
  | nil => simp
  | cons a l ih =>
    simp only [List.flatMap_cons]
    exact (h a).append ih

/-- C7 (confirmed).  With everything else fixed, the match list at a
higher threshold is a sublist (hence a subset, record for record) of
the match list at a lower threshold, and raising the threshold never
increases the retained match count. -/
theorem c7_threshold_monotone (g : RngStream) (data : List ℚ) (P K : Nat)
    (t1 t2 : ℚ) (h : t1 < t2) :
    (analyze_cmb_correlations g data P K t2).Sublist
      (analyze_cmb_correlations g data P K t1) ∧
    (analyze_cmb_correlations g data P K t2).length ≤
      (analyze_cmb_correlations g data P K t1).length := by
  have hsub : (analyze_cmb_correlations g data P K t2).Sublist
      (analyze_cmb_correlations g data P K t1) := by
    unfold analyze_cmb_correlations
    split
    · exact List.Sublist.refl _
    · apply flatMap_sublist
      intro start1
      apply filterMap_sublist_of_imp
      intro sep r
      exact matchRecordFor_mono data P t1 t2 h.le start1 sep r
  exact ⟨hsub, hsub.length_le⟩

/-- Witness for c7_threshold_monotone with thresholds 0 < 1 on a small
concrete array. -/
theorem c7_threshold_monotone_witness :
    (analyze_cmb_correlations (mtStream 42) [0, 1, 0, 1, 0, 1] 1 4 1).Sublist
      (analyze_cmb_correlations (mtStream 42) [0, 1, 0, 1, 0, 1] 1 4 0) ∧
    (analyze_cmb_correlations (mtStream 42) [0, 1, 0, 1, 0, 1] 1 4 1).length ≤
      (analyze_cmb_correlations (mtStream 42) [0, 1, 0, 1, 0, 1] 1 4 0).length :=
  c7_threshold_monotone (mtStream 42) [0, 1, 0, 1, 0, 1] 1 4 0 1 (by decide)

/-- C8 (confirmed).  A zero-variance (constant) patch on either side of
a candidate pair makes the coefficient NaN and the pair is skipped with
no record, whatever the threshold; the loop structure of the analysis
(a per-pair `filterMap` inside a per-start `flatMap`) keeps all other
pairs unaffected. -/
theorem c8_degenerate_skip (vd : List ℚ) (P : Nat) (t : ℚ) (s1 sep : Nat)
    (h : (∃ c, ∀ a ∈ (vd.drop s1).take P, a = c) ∨
         (∃ c, ∀ a ∈ (vd.drop (start2Of vd.length P s1 sep)).take P, a = c)) :
    matchRecordFor vd P t s1 sep = none ∧
    ∀ g K, analyze_cmb_correlations g vd P K t =
      if vd.length < P * 2 then []
      else (analyze_sample_starts (mtStream 42) vd.length P K).flatMap (fun start1 =>
        (test_separations vd.length).filterMap (matchRecordFor vd P t start1)) := by
  constructor
  · have hnan : corrcoef ((vd.drop s1).take P)
        ((vd.drop (start2Of vd.length P s1 sep)).take P) = none := by
      rcases h with ⟨c, hc⟩ | ⟨c, hc⟩
      · exact if_pos (Or.inl (sXX_of_const _ c hc))
      · exact if_pos (Or.inr (sXX_of_const _ c hc))
    unfold matchRecordFor
    rw [hnan, Option.none_bind]
  · intro g K
    rfl

/-- Witness for c8_degenerate_skip: the patch [1, 1, 1] at start 0 is
constant and its pairing at offset 4 produces no record. -/
theorem c8_degenerate_skip_witness :
    matchRecordFor [1, 1, 1, 0, 17, 3, 5, 9] 3 0 0 4 = none ∧
    ∀ g K, analyze_cmb_correlations g [1, 1, 1, 0, 17, 3, 5, 9] 3 K 0 =
      if ([(1 : ℚ), 1, 1, 0, 17, 3, 5, 9] : List ℚ).length < 3 * 2 then []
      else (analyze_sample_starts (mtStream 42)
          ([(1 : ℚ), 1, 1, 0, 17, 3, 5, 9] : List ℚ).length 3 K).flatMap (fun start1 =>
        (test_separations ([(1 : ℚ), 1, 1, 0, 17, 3, 5, 9] : List ℚ).length).filterMap
          (matchRecordFor [1, 1, 1, 0, 17, 3, 5, 9] 3 0 start1)) :=
  c8_degenerate_skip [1, 1, 1, 0, 17, 3, 5, 9] 3 0 0 4 (Or.inl ⟨1, by decide⟩)

/-- C9 (confirmed).  The significance tester receives exactly the
magnitudes of the top-20 reporting subset: `main` sorts the matches by
descending absolute correlation (stably) and exports the first twenty;
`statistical_analysis` takes the absolute values of their correlations
and runs the one-sample t test against population mean 0.  The sorted
list is a permutation of the full match list, the subset is a sublist
of it with `min 20 (number of matches)` entries, and the full sorted
list is pairwise descending in magnitude, so the subset is the top.
The returned p value is the external scipy function of this statistic
and the sample size. -/
theorem c9_significance_input (ms : List MatchRecord) :
    statistical_analysis_t (top_matches ms) =
      ttest_1samp_t (((sortDesc ms).take 20).map (fun m => |m.correlation|)) 0 ∧
    (sortDesc ms).Perm ms ∧
    (top_matches ms).Sublist (sortDesc ms) ∧
    (top_matches ms).length = min 20 ms.length ∧
    (sortDesc ms).Pairwise (fun a b => |b.correlation| ≤ |a.correlation|) := by
  have htrans : ∀ a b c : MatchRecord,
      (decide (|b.correlation| ≤ |a.correlation|) : Bool) = true →
      (decide (|c.correlation| ≤ |b.correlation|) : Bool) = true →
      (decide (|c.correlation| ≤ |a.correlation|) : Bool) = true := by
    intro a b c h1 h2
    rw [decide_eq_true_iff] at h1 h2 ⊢
    exact le_trans h2 h1
  have htotal : ∀ a b : MatchRecord,
      (decide (|b.correlation| ≤ |a.correlation|) ||
        decide (|a.correlation| ≤ |b.correlation|)) = true := by
    intro a b
    rw [Bool.or_eq_true, decide_eq_true_iff, decide_eq_true_iff]
    exact le_total _ _
  refine ⟨rfl, List.mergeSort_perm ms _, List.take_sublist _ _, ?_, ?_⟩
  · unfold top_matches sortDesc
    rw [List.length_take, List.length_mergeSort]
  · have hs := List.sorted_mergeSort htrans htotal ms
    exact hs.imp (fun hab => of_decide_eq_true hab)

/-- C3 (corrected).  Once the terminator has been found, the reader's
error return happens exactly when a watched header field fails to
parse, when the remaining payload is not a whole number of elements
(even if at least one element's bytes remain), or when the trimmed
array comes out empty; a missing END terminator does not produce the
error outcome at all — the scan loop never exits (see the C4 theorem). -/
theorem c3_reader_corrected :
    (∀ bytes fuel, read_fits_simple bytes fuel = some none ↔
      ∃ cards, readCards bytes fuel = some cards ∧ processCards bytes cards = none) ∧
    (∀ bytes cards, processCards bytes cards = none ↔
      (scanFields cards = none ∨
        ∃ f, scanFields cards = some f ∧
          ((bytes.drop (headerByteSize cards)).length % bitpixWidth f.2.2 ≠ 0 ∨
            pyTrim f.2.1 (beChunks (bitpixWidth f.2.2)
              (bytes.drop (headerByteSize cards))) = []))) := by
  constructor
  · intro bytes fuel
    unfold read_fits_simple
    exact Option.map_eq_some'
  · intro bytes cards
    cases hscan : scanFields cards with
    | none => simp [processCards, hscan]
    | some f =>
      obtain ⟨na, n1, bp⟩ := f
      simp only [processCards, hscan]
      split_ifs with h1 h2
      · constructor
        · intro _
          exact Or.inr ⟨(na, n1, bp), rfl, Or.inl h1⟩
        · intro _
          rfl
      · constructor
        · intro _
          exact Or.inr ⟨(na, n1, bp), rfl, Or.inr h2⟩
        · intro _
          rfl
      · constructor
        · intro hcontra
          exact absurd hcontra (by simp)
        · intro hr
          rcases hr with hr | ⟨f', hf', hr⟩
          · exact absurd hr (by simp)
          · obtain rfl : (na, n1, bp) = f' := by
              injection hf'
            rcases hr with hr | hr
            · exact absurd hr h1
            · exact absurd hr h2

set_option maxRecDepth 40000 in
/-- C3 counterexample: a stream whose header is a lone END card
(terminator present, no fields to parse) followed by six payload bytes.
At least one four-byte element's bytes remain, none of the claim's
three failure cases holds, yet the reader returns the error outcome,
because six is not a multiple of the element width. -/
theorem c3_counterexample :
    read_fits_simple cexStreamC3 1 = some none ∧
    readCards cexStreamC3 1 = some [endCard] ∧
    scanFields [endCard] = some (none, none, none) ∧
    (cexStreamC3.drop 2880).length = 6 ∧
    4 ≤ (cexStreamC3.drop 2880).length := by decide

/-- Dropping while a predicate holds ignores a leading run of a
satisfying value. -/
theorem dropWhile_replicate_append (p : Nat → Bool) (a : Nat) (hp : p a = true)
    (n : Nat) (l : List Nat) :
    (List.replicate n a ++ l).dropWhile p = l.dropWhile p := by
  induction n with
  | zero => simp
  | succ m ih => simp [List.replicate_succ, List.dropWhile_cons, hp, ih]

/-- Dropping while a predicate that fails everywhere drops nothing. -/
theorem dropWhile_all_false (p : Nat → Bool) (l : List Nat)
    (h : ∀ x ∈ l, p x = false) : l.dropWhile p = l := by
  cases l with
  | nil => rfl
  | cons a as => simp [List.dropWhile_cons, h a (by simp)]

/-- Dropping while a predicate skips a whole satisfying prefix. -/
theorem dropWhile_append_all (p : Nat → Bool) (k l : List Nat)
    (hp : ∀ x ∈ k, p x = true) :
    (k ++ l).dropWhile p = l.dropWhile p := by
  induction k with
  | nil => simp
  | cons a as ih =>
    simp only [List.cons_append, List.dropWhile_cons, hp a (by simp), if_pos]
    exact ih (fun x hx => hp x (by simp [hx]))

/-- Stripping a value fragment padded with one leading and a run of
trailing spaces recovers the fragment. -/
theorem pyStrip_padded (vdig : List Nat) (n : Nat) (hne : vdig ≠ [])
    (hv : ∀ x ∈ vdig, isSpaceB x = false) :
    pyStrip (32 :: (vdig ++ List.replicate n 32)) = vdig := by
  obtain ⟨v, vs, rfl⟩ := List.exists_cons_of_ne_nil hne
  have h32 : isSpaceB 32 = true := rfl
  have hv0 : isSpaceB v = false := hv v (by simp)
  unfold pyStrip
  have s1 : (32 :: (v :: vs ++ List.replicate n 32)).dropWhile isSpaceB =
      v :: vs ++ List.replicate n 32 := by
    simp [List.dropWhile_cons, h32, hv0]
  rw [s1]
  have s2 : (v :: vs ++ List.replicate n 32).reverse =
      List.replicate n 32 ++ (v :: vs).reverse := by
    rw [List.reverse_append, List.reverse_replicate]
  rw [s2, dropWhile_replicate_append isSpaceB 32 h32]
  rw [dropWhile_all_false isSpaceB (v :: vs).reverse
    (fun x hx => hv x (List.mem_reverse.mp hx))]
  rw [List.reverse_reverse]

/-- A decimal digit code point is not `=`, `/` or whitespace, and is
plain ASCII. -/
theorem digit_props (x : Nat) (h : isDigitB x = true) :
    x ≠ 61 ∧ x ≠ 47 ∧ isSpaceB x = false ∧ x < 128 := by
  simp [isDigitB] at h
  simp [isSpaceB]
  omega

/-- Evaluation of the header-field parser on a well-formed card: an
`=`-free keyword, the code points `= `, the value fragment, space
padding. -/
theorem parseFieldValue_built (k8 vdig : List Nat) (m : Nat)
    (hk : ∀ x ∈ k8, x ≠ 61) (hne : vdig ≠ [])
    (hv61 : ∀ x ∈ vdig, x ≠ 61) (hv47 : ∀ x ∈ vdig, x ≠ 47)
    (hvs : ∀ x ∈ vdig, isSpaceB x = false) :
    parseFieldValue (k8 ++ 61 :: 32 :: (vdig ++ List.replicate m 32)) =
      pyIntParse vdig := by
  unfold parseFieldValue splitEqSecond
  have hdrop : (k8 ++ 61 :: 32 :: (vdig ++ List.replicate m 32)).dropWhile (· ≠ 61) =
      61 :: 32 :: (vdig ++ List.replicate m 32) := by
    rw [dropWhile_append_all _ k8 _ (fun x hx => decide_eq_true (hk x hx))]
    simp [List.dropWhile_cons]
  rw [hdrop]
  have htake61 : (32 :: (vdig ++ List.replicate m 32)).takeWhile (· ≠ 61) =
      32 :: (vdig ++ List.replicate m 32) := by
    apply List.takeWhile_eq_self_iff.mpr
    intro x hx
    simp only [List.mem_cons, List.mem_append, List.mem_replicate] at hx
    rcases hx with rfl | hx | ⟨-, rfl⟩
    · decide
    · exact decide_eq_true (hv61 x hx)
    · decide
  have htake47 : (32 :: (vdig ++ List.replicate m 32)).takeWhile (· ≠ 47) =
      32 :: (vdig ++ List.replicate m 32) := by
    apply List.takeWhile_eq_self_iff.mpr
    intro x hx
    simp only [List.mem_cons, List.mem_append, List.mem_replicate] at hx
    rcases hx with rfl | hx | ⟨-, rfl⟩
    · decide
    · exact decide_eq_true (hv47 x hx)
    · decide
  simp only [htake61, htake47]
  rw [pyStrip_padded vdig m hne hvs]

/-- `decode('ascii', errors='ignore')` keeps a plain-ASCII card
unchanged. -/
theorem decodeAscii_eq_self (l : List Nat) (h : ∀ x ∈ l, x < 128) :
    decodeAscii l = l :=
  List.filter_eq_self.mpr (fun a ha => decide_eq_true (h a ha))

/-- A card whose content fits in a record is padded to exactly 80
bytes. -/
theorem padCard_length (l : List Nat) (h : l.length ≤ 80) :
    (padCard l).length = 80 := by
  simp [padCard]
  omega

/-- One step of the header loop over a full non-END card. -/
theorem readCards_cons (c rest : List Nat) (fuel : Nat) (h80 : c.length = 80)
    (hdec : decodeAscii c = c)
    (hnotend : ([69, 78, 68].isPrefixOf c) = false) :
    readCards (c ++ rest) (fuel + 1) = (readCards rest fuel).map (c :: ·) := by
  have ht : (c ++ rest).take 80 = c := by
    rw [← h80]
    exact List.take_left c rest
  have hd : (c ++ rest).drop 80 = rest := by
    rw [← h80]
    exact List.drop_left c rest
  simp [readCards, ht, hd, hdec, hnotend]

/-- The header loop stops at the END card. -/
theorem readCards_end (rest : List Nat) (fuel : Nat) :
    readCards (endCard ++ rest) (fuel + 1) = some [endCard] := by
  have h80 : endCard.length = 80 := by decide
  have ht : (endCard ++ rest).take 80 = endCard := by
    rw [← h80]
    exact List.take_left endCard rest
  have hdec : decodeAscii endCard = endCard := by decide
  have hend : ([69, 78, 68].isPrefixOf endCard) = true := by decide
  simp [readCards, ht, hdec, hend]

/-- The chunk count of `np.frombuffer` is the byte count over the
element width. -/
theorem beChunks_length (w : Nat) (hw : 0 < w) (l : List Nat) :
    (beChunks w l).length = l.length / w := by
  rw [beChunks]
  split
  · rename_i h
    rcases h with h | h
    · omega
    · simp [Nat.div_eq_of_lt h]
  · rename_i h
    push_neg at h
    have ih := beChunks_length w hw (l.drop w)
    simp only [List.length_cons, ih, List.length_drop]
    rw [Nat.div_eq_sub_div hw h.2]
  termination_by l.length
  decreasing_by
    simp only [List.length_drop]
    omega

/-- The element width is positive for every BITPIX code. -/
theorem bitpixWidth_pos (b : Option Int) : 0 < bitpixWidth b := by
  unfold bitpixWidth
  split_ifs <;> norm_num

set_option maxRecDepth 80000 in
/-- C5 (confirmed).  A well-formed synthetic input — an 80-byte-record
header declaring NAXIS, a first-axis length M (as a digit string) and a
BITPIX code (as a signed digit string), terminated by END and padded to
the 2880-byte block, followed by a big-endian payload of exactly M
elements of the declared width — parses to exactly M elements whose
big-endian bit patterns match the payload bit for bit. -/
theorem c5_roundtrip (mdig bdig payload : List Nat) (M : Nat) (bpx : Int) (fuel : Nat)
    (hmlen : mdig.length ≤ 70) (hblen : bdig.length ≤ 70)
    (hmdig : ∀ x ∈ mdig, isDigitB x = true) (hmne : mdig ≠ [])
    (hbdig : ∀ x ∈ bdig, x = 45 ∨ isDigitB x = true) (hbne : bdig ≠ [])
    (hMv : pyIntParse mdig = some (M : Int))
    (hBv : pyIntParse bdig = some bpx)
    (hM1 : 1 ≤ M)
    (hpay : payload.length = M * bitpixWidth (some bpx)) :
    read_fits_simple (mkFits mdig bdig payload) (fuel + 4) =
      some (some (beChunks (bitpixWidth (some bpx)) payload)) ∧
    (beChunks (bitpixWidth (some bpx)) payload).length = M := by
  have hmprops : ∀ x ∈ mdig, x ≠ 61 ∧ x ≠ 47 ∧ isSpaceB x = false ∧ x < 128 :=
    fun x hx => digit_props x (hmdig x hx)
  have hbprops : ∀ x ∈ bdig, x ≠ 61 ∧ x ≠ 47 ∧ isSpaceB x = false ∧ x < 128 := by
    intro x hx
    rcases hbdig x hx with rfl | hd
    · refine ⟨by omega, by omega, by simp [isSpaceB], by omega⟩
    · exact digit_props x hd
  -- the two variable cards in built form
  have hcard1 : naxis1Card mdig =
      [78, 65, 88, 73, 83, 49, 32, 32] ++ 61 :: 32 ::
        (mdig ++ List.replicate (80 - (10 + mdig.length)) 32) := by
    simp [naxis1Card, padCard, naxis1Key, List.length_append]
    omega
  have hcard2 : bitpixCard bdig =
      [66, 73, 84, 80, 73, 88, 32, 32] ++ 61 :: 32 ::
        (bdig ++ List.replicate (80 - (10 + bdig.length)) 32) := by
    simp [bitpixCard, padCard, bitpixKey, List.length_append]
    omega
  -- card lengths
  have hlen0 : naxisCard.length = 80 := by decide
  have hlen1 : (naxis1Card mdig).length = 80 := by
    apply padCard_length
    simp only [List.length_append, naxis1Key, List.length_cons, List.length_nil]
    omega
  have hlen2 : (bitpixCard bdig).length = 80 := by
    apply padCard_length
    simp only [List.length_append, bitpixKey, List.length_cons, List.length_nil]
    omega
  have hlen3 : endCard.length = 80 := by decide
  -- ASCII identity of the decode step
  have hdec1 : decodeAscii (naxis1Card mdig) = naxis1Card mdig := by
    apply decodeAscii_eq_self
    intro x hx
    rw [hcard1] at hx
    rcases List.mem_append.mp hx with hk | hx'
    · have hlt : ∀ y ∈ [78, 65, 88, 73, 83, 49, 32, 32], y < 128 := by decide
      exact hlt x hk
    · rcases hx' with _ | ⟨_, hx''⟩
      · omega
      · rcases hx'' with _ | ⟨_, hx3⟩
        · omega
        · rcases List.mem_append.mp hx3 with hm | hr
          · exact (hmprops x hm).2.2.2
          · have := List.mem_replicate.mp hr
            omega
  have hdec2 : decodeAscii (bitpixCard bdig) = bitpixCard bdig := by
    apply decodeAscii_eq_self
    intro x hx
    rw [hcard2] at hx
    rcases List.mem_append.mp hx with hk | hx'
    · have hlt : ∀ y ∈ [66, 73, 84, 80, 73, 88, 32, 32], y < 128 := by decide
      exact hlt x hk
    · rcases hx' with _ | ⟨_, hx''⟩
      · omega
      · rcases hx'' with _ | ⟨_, hx3⟩
        · omega
        · rcases List.mem_append.mp hx3 with hm | hr
          · exact (hbprops x hm).2.2.2
          · have := List.mem_replicate.mp hr
            omega
  -- none of the three leading cards is an END record
  have hne1 : ([69, 78, 68].isPrefixOf (naxis1Card mdig)) = false := by
    rw [hcard1]
    simp [List.isPrefixOf]
  have hne2 : ([69, 78, 68].isPrefixOf (bitpixCard bdig)) = false := by
    rw [hcard2]
    simp [List.isPrefixOf]
  -- the header loop collects exactly the four cards
  have hsplit : mkFits mdig bdig payload =
      naxisCard ++ (naxis1Card mdig ++ (bitpixCard bdig ++
        (endCard ++ (List.replicate 2560 32 ++ payload)))) := by
    simp [mkFits, List.append_assoc]
  have hrc : readCards (mkFits mdig bdig payload) (fuel + 4) =
      some [naxisCard, naxis1Card mdig, bitpixCard bdig, endCard] := by
    rw [hsplit]
    rw [show fuel + 4 = (fuel + 3) + 1 from rfl]
    rw [readCards_cons naxisCard _ (fuel + 3) hlen0 (by decide) (by decide)]
    rw [show fuel + 3 = (fuel + 2) + 1 from rfl]
    rw [readCards_cons (naxis1Card mdig) _ (fuel + 2) hlen1 hdec1 hne1]
    rw [show fuel + 2 = (fuel + 1) + 1 from rfl]
    rw [readCards_cons (bitpixCard bdig) _ (fuel + 1) hlen2 hdec2 hne2]
    rw [readCards_end _ fuel]
    rfl
  -- field extraction over the four cards
  have hA1 : ([78, 65, 88, 73, 83, 32, 32, 32, 61].isPrefixOf naxisCard) = true := by
    decide
  have hApv : parseFieldValue naxisCard = some 1 := by decide
  have hB1 : ([78, 65, 88, 73, 83, 32, 32, 32, 61].isPrefixOf (naxis1Card mdig)) = false := by
    rw [hcard1]
    simp [List.isPrefixOf]
  have hB2 : ([78, 65, 88, 73, 83, 49, 32, 32, 61].isPrefixOf (naxis1Card mdig)) = true := by
    rw [hcard1]
    simp [List.isPrefixOf]
  have hBpv : parseFieldValue (naxis1Card mdig) = some (M : Int) := by
    rw [hcard1]
    rw [parseFieldValue_built [78, 65, 88, 73, 83, 49, 32, 32] mdig _
      (by decide) hmne (fun x hx => (hmprops x hx).1) (fun x hx => (hmprops x hx).2.1)
      (fun x hx => (hmprops x hx).2.2.1)]
    exact hMv
  have hC1 : ([78, 65, 88, 73, 83, 32, 32, 32, 61].isPrefixOf (bitpixCard bdig)) = false := by
    rw [hcard2]
    simp [List.isPrefixOf]
  have hC2 : ([78, 65, 88, 73, 83, 49, 32, 32, 61].isPrefixOf (bitpixCard bdig)) = false := by
    rw [hcard2]
    simp [List.isPrefixOf]
  have hC3 : ([66, 73, 84, 80, 73, 88, 32, 32, 61].isPrefixOf (bitpixCard bdig)) = true := by
    rw [hcard2]
    simp [List.isPrefixOf]
  have hCpv : parseFieldValue (bitpixCard bdig) = some bpx := by
    rw [hcard2]
    rw [parseFieldValue_built [66, 73, 84, 80, 73, 88, 32, 32] bdig _
      (by decide) hbne (fun x hx => (hbprops x hx).1) (fun x hx => (hbprops x hx).2.1)
      (fun x hx => (hbprops x hx).2.2.1)]
    exact hBv
  have hD1 : ([78, 65, 88, 73, 83, 32, 32, 32, 61].isPrefixOf endCard) = false := by decide
  have hD2 : ([78, 65, 88, 73, 83, 49, 32, 32, 61].isPrefixOf endCard) = false := by decide
  have hD3 : ([66, 73, 84, 80, 73, 88, 32, 32, 61].isPrefixOf endCard) = false := by decide
  have hsf : scanFields [naxisCard, naxis1Card mdig, bitpixCard bdig, endCard] =
      some (some 1, some (M : Int), some bpx) := by
    unfold scanFields
    simp only [scanFieldsAux, hA1, hApv, hB1, hB2, hBpv, hC1, hC2, hC3, hCpv,
      hD1, hD2, hD3, Option.some_bind, eq_self_iff_true, if_true, if_false,
      Bool.false_eq_true]
  -- locate the payload
  have hhdr : headerByteSize [naxisCard, naxis1Card mdig, bitpixCard bdig, endCard] = 2880 := by
    unfold headerByteSize
    simp only [List.length_cons, List.length_nil]
  have hH : (naxisCard ++ naxis1Card mdig ++ bitpixCard bdig ++ endCard ++
      List.replicate 2560 32).length = 2880 := by
    simp only [List.length_append, hlen0, hlen1, hlen2, hlen3, List.length_replicate]
  have hdrop : (mkFits mdig bdig payload).drop 2880 = payload := by
    rw [show mkFits mdig bdig payload =
      (naxisCard ++ naxis1Card mdig ++ bitpixCard bdig ++ endCard ++
        List.replicate 2560 32) ++ payload from rfl]
    rw [← hH, List.drop_left]
  -- chunking
  have hw : 0 < bitpixWidth (some bpx) := bitpixWidth_pos _
  have hchlen : (beChunks (bitpixWidth (some bpx)) payload).length = M := by
    rw [beChunks_length _ hw, hpay, Nat.mul_div_cancel M hw]
  have hproc : processCards (mkFits mdig bdig payload)
      [naxisCard, naxis1Card mdig, bitpixCard bdig, endCard] =
      some (beChunks (bitpixWidth (some bpx)) payload) := by
    simp only [processCards, hsf, hhdr, hdrop, hpay]
    rw [if_neg (by simp [Nat.mul_mod_left])]
    have htrim : pyTrim (some (M : Int)) (beChunks (bitpixWidth (some bpx)) payload) =
        beChunks (bitpixWidth (some bpx)) payload := by
      simp only [pyTrim]
      rw [if_neg (by exact_mod_cast (by omega : ¬ M = 0)),
        if_pos (by exact_mod_cast hM1), Int.toNat_natCast]
      exact List.take_of_length_le (le_of_eq hchlen)
    rw [htrim]
    rw [if_neg (by
      intro hcontra
      rw [hcontra] at hchlen
      simp at hchlen
      omega)]
  constructor
  · unfold read_fits_simple
    rw [hrc, Option.map_some', hproc]
  · exact hchlen

/-- Witness for c5_roundtrip: M = 2 elements, BITPIX -32 (four-byte
big-endian float), payload bytes of the float bit patterns of 1.0 and
2.0. -/
theorem c5_roundtrip_witness :
    read_fits_simple (mkFits [50] [45, 51, 50] [0, 0, 128, 63, 0, 0, 0, 64]) (0 + 4) =
      some (some (beChunks (bitpixWidth (some (-32))) [0, 0, 128, 63, 0, 0, 0, 64])) ∧
    (beChunks (bitpixWidth (some (-32))) [0, 0, 128, 63, 0, 0, 0, 64]).length = 2 :=
  c5_roundtrip [50] [45, 51, 50] [0, 0, 128, 63, 0, 0, 0, 64] 2 (-32) 0
    (by decide) (by decide) (by decide) (by decide) (by decide) (by decide)
    (by decide) (by decide) (by decide) (by decide)
